import Mathlib

/-!
Verification development for the avian NA/HA feature-extraction pipeline
(avian_na_ha_pipeline.py). The pipeline reads aligned FASTA records, extracts
an EPI_ISL identifier and an optional ISO date from each header, filters by an
optional date range, computes NA stalk lengths relative to a reference-derived
interval, counts HA N-glycosylation sequon motifs, inner-joins the two feature
tables on the identifier, and aggregates a (stalk length, GLS count) frequency
table.

The embedding works over `List Char` strings. Motif regexes passed to the
stalk boundary resolver, and the fixed GLS regex `[Nn][^Pp][SsTt]`, are
modelled as fixed-width sequences of character classes (`List (Char → Bool)`),
with case-insensitivity folded into the classes; `search` is the leftmost
match of such a pattern, as `re.search` computes for these patterns. Pandas
operations are modelled by their documented semantics: `merge` with
`how="inner"` and the default `sort=False` emits, for each left row in order,
its matching right rows in right order; `groupby(...).size()` with the default
`sort=True` followed by `sort_values` yields the distinct keys in ascending
order with their multiplicities. Python string comparison is code-point
lexicographic (`strLe`), and the truthiness test `if min_date:` treats both
`None` and the empty string as falsy (`truthy`).
-/

namespace AvianPipeline

/-! ### Fixed-width character-class patterns and leftmost search -/

/-- Fixed-width pattern: one character class per position. -/
abbrev Pat := List (Char → Bool)

/-- Does the pattern match starting at the head of the string. -/
def matchHere : Pat → List Char → Bool
  | [], _ => true
  | _ :: _, [] => false
  | p :: ps, c :: cs => p c && matchHere ps cs

/-- Index of the leftmost match of the pattern in the string, as re.search. -/
def search (pat : Pat) : List Char → Option Nat
  | [] => if matchHere pat [] then some 0 else none
  | c :: cs =>
    if matchHere pat (c :: cs) then some 0
    else (search pat cs).map (fun i => i + 1)

/-- Case-insensitive equality of two characters. -/
def ciEq (p c : Char) : Bool := p.toLower == c.toLower

/-- Class accepting exactly the two case variants of a letter. -/
def ci (u l : Char) (c : Char) : Bool := c == u || c == l

/-! ### Metadata regexes: EPI_ISL identifiers and ISO dates -/

/-- Literal scaffold of the identifier regex EPI_ISL_<digits>. -/
def epiLit : List Char := ['E', 'P', 'I', '_', 'I', 'S', 'L', '_']

/-- Match a literal case-insensitively at the head; return the rest on success. -/
def matchLitCI : List Char → List Char → Option (List Char)
  | [], rest => some rest
  | _ :: _, [] => none
  | p :: ps, c :: cs => if ciEq p c then matchLitCI ps cs else none

/-- Anchored match of the regex EPI_ISL_\d+ (IGNORECASE, greedy digits) at the
head of s; returns the matched substring verbatim (case preserved). -/
def epiAt (s : List Char) : Option (List Char) :=
  match matchLitCI epiLit s with
  | none => none
  | some rest =>
    let ds := rest.takeWhile Char.isDigit
    if ds.isEmpty then none else some (s.take (epiLit.length + ds.length))

/-- Leftmost match of EPI_ISL_\d+ in the header, as _EPI_RE.search. -/
def epiSearch : List Char → Option (List Char)
  | [] => none
  | c :: cs =>
    match epiAt (c :: cs) with
    | some m => some m
    | none => epiSearch cs

/-- Anchored match of the regex \d{4}-\d{2}-\d{2} at the head of s. -/
def dateAt (s : List Char) : Option (List Char) :=
  match s with
  | y1 :: y2 :: y3 :: y4 :: h1 :: m1 :: m2 :: h2 :: d1 :: d2 :: _ =>
    if y1.isDigit && y2.isDigit && y3.isDigit && y4.isDigit && (h1 == '-') &&
       m1.isDigit && m2.isDigit && (h2 == '-') && d1.isDigit && d2.isDigit
    then some [y1, y2, y3, y4, h1, m1, m2, h2, d1, d2]
    else none
  | _ => none

/-- Leftmost match of \d{4}-\d{2}-\d{2} in the header, as _DATE_RE.search. -/
def dateSearch : List Char → Option (List Char)
  | [] => none
  | c :: cs =>
    match dateAt (c :: cs) with
    | some m => some m
    | none => dateSearch cs

/-! ### Python string order and truthiness -/

/-- Python lexicographic string comparison by code point: s ≤ t. -/
def strLe : List Char → List Char → Bool
  | [], _ => true
  | _ :: _, [] => false
  | a :: as, b :: bs => if a = b then strLe as bs else decide (a < b)

/-- Python truthiness of an optional string: None and "" are falsy. -/
def truthy : Option (List Char) → Bool
  | none => false
  | some s => !s.isEmpty

/-! ### Sequence reader (fasta_to_dataframe over parsed FASTA entries) -/

/-- One FASTA entry: the header line text (after the angle bracket) and the
concatenated sequence text, gap characters included. -/
structure FastaEntry where
  header : List Char
  seqtext : List Char
deriving DecidableEq

/-- Whitespace as Python str.split sees it inside a header line. -/
def isWS (c : Char) : Bool := c == ' ' || c == '\t'

/-- Biopython record.id: the first whitespace-delimited word of the header
line. The source computes `record.id if record.id else description.split()[0]`;
for a header that is not all whitespace both branches equal this word. -/
def record_id (h : List Char) : List Char :=
  (h.dropWhile isWS).takeWhile (fun c => !isWS c)

/-- One row of the dataframe built by fasta_to_dataframe. -/
structure Row where
  Header : List Char
  Sequence : List Char
  Length : Nat
deriving DecidableEq

/-- fasta_to_dataframe: one row per FASTA entry, in file order; the Header
column holds the Biopython record id, the Sequence column the raw residues. -/
def fasta_to_dataframe (entries : List FastaEntry) : List Row :=
  entries.map (fun e =>
    { Header := record_id e.header, Sequence := e.seqtext, Length := e.seqtext.length })

/-! ### Metadata extraction (annotate_epi_and_date) -/

/-- Row of the annotated dataframe: Row plus the EPI and Date columns. -/
structure AnnRow where
  Header : List Char
  Sequence : List Char
  Length : Nat
  EPI : List Char
  Date : Option (List Char)
deriving DecidableEq

/-- extract_epi_and_date: first EPI match and first date match of a header. -/
def extract_epi_and_date (h : List Char) :
    Option (List Char) × Option (List Char) :=
  (epiSearch h, dateSearch h)

/-- annotate_epi_and_date: adds EPI and Date columns from each Header, then
drops (dropna on EPI) every row whose header has no EPI identifier. -/
def annotate_epi_and_date (rows : List Row) : List AnnRow :=
  rows.filterMap (fun r =>
    match epiSearch r.Header with
    | some e =>
      some { Header := r.Header, Sequence := r.Sequence, Length := r.Length,
             EPI := e, Date := dateSearch r.Header }
    | none => none)

/-! ### Date filter (filter_by_date) -/

/-- Row mask of the min-date filter step: Date isna or Date ≥ min_date. -/
def keepMin (m : List Char) (d : Option (List Char)) : Bool :=
  match d with
  | none => true
  | some d => strLe m d

/-- Row mask of the max-date filter step: Date isna or Date ≤ max_date. -/
def keepMax (x : List Char) (d : Option (List Char)) : Bool :=
  match d with
  | none => true
  | some d => strLe d x

/-- filter_by_date: applies the min-date mask when min_date is truthy, then
the max-date mask when max_date is truthy (Python `if min_date:` treats the
empty string like None). -/
def filter_by_date (rows : List AnnRow) (mn mx : Option (List Char)) :
    List AnnRow :=
  let out1 :=
    match mn with
    | some m => if m.isEmpty then rows else rows.filter (fun r => keepMin m r.Date)
    | none => rows
  match mx with
  | some x => if x.isEmpty then out1 else out1.filter (fun r => keepMax x r.Date)
  | none => out1

/-! ### Stalk boundary resolver (find_stalk_bounds) -/

/-- find_stalk_bounds: leftmost case-insensitive matches of the begin and end
motifs in the reference; start is the end position of the begin match plus
start_offset, end is the start position of the end match plus end_offset.
Raises (Except.error) when a motif is absent or start is not below end. -/
def find_stalk_bounds (ref : List Char) (bp ep : Pat) (so eo : Int) :
    Except String (Int × Int) :=
  match search bp ref, search ep ref with
  | some i, some j =>
    let start_idx : Int := ((i + bp.length : Nat) : Int) + so
    let end_idx : Int := ((j : Nat) : Int) + eo
    if end_idx ≤ start_idx then
      Except.error "Computed stalk start >= end. Check regex/offsets."
    else Except.ok (start_idx, end_idx)
  | _, _ =>
    Except.error "Begin and/or end motifs not located in reference. Adjust regex/offsets."

/-! ### Stalk length extraction (extract_stalk_lengths) -/

/-- Clamp of one Python slice index against a string of length n. -/
def pyIdx (n : Nat) (i : Int) : Nat :=
  if i < 0 then ((n : Int) + i).toNat else min i.toNat n

/-- Python slice s[a:b] over a character list. -/
def pySlice (s : List Char) (a b : Int) : List Char :=
  (s.take (pyIdx s.length b)).drop (pyIdx s.length a)

/-- Length of seq[stalk_start:stalk_end] with gap characters removed. -/
def stalk_length_of (seq : List Char) (a b : Int) : Nat :=
  ((pySlice seq a b).filter (fun c => !(c == '-'))).length

/-- extract_stalk_lengths: pairs each row with its Stalk_length column. -/
def extract_stalk_lengths (rows : List AnnRow) (a b : Int) :
    List (AnnRow × Nat) :=
  rows.map (fun r => (r, stalk_length_of r.Sequence a b))

/-! ### GLS motif counter (count_gls_motifs) -/

/-- Gap removal: seq.replace with the gap character deleted. -/
def ungap (s : List Char) : List Char := s.filter (fun c => !(c == '-'))

/-- First class of the GLS regex [Nn]. -/
def isN (c : Char) : Bool := c == 'N' || c == 'n'

/-- Second class of the GLS regex, the negated class for P. -/
def notP (c : Char) : Bool := !(c == 'P' || c == 'p')

/-- Third class of the GLS regex [SsTt]. -/
def isST (c : Char) : Bool := c == 'S' || c == 's' || c == 'T' || c == 't'

/-- Full three-position test of the GLS regex [Nn][^Pp][SsTt]. -/
def glsTriple (a b c : Char) : Bool := isN a && notP b && isST c

/-- Non-overlapping left-to-right scan of re.findall for the GLS regex: on a
match, resume after its three consumed characters; otherwise advance one. -/
def glsScan : List Char → Nat
  | a :: b :: c :: rest =>
    if glsTriple a b c then glsScan rest + 1 else glsScan (b :: c :: rest)
  | _ => 0

/-- GLS count of one sequence: matches of the regex on the ungapped text. -/
def gls_count (seq : List Char) : Nat := glsScan (ungap seq)

/-- count_gls_motifs: the per-sequence counts, in order. -/
def count_gls_motifs (seqs : List (List Char)) : List Nat := seqs.map gls_count

/-! ### NA subcommand core (run_na after the date filter) -/

/-- Output row of the na subcommand (columns EPI, Date, Stalk_length). -/
structure NaOut where
  EPI : List Char
  Date : Option (List Char)
  Stalk_length : Nat
deriving DecidableEq

/-- run_na after filtering: resolve the stalk interval from the first row,
optionally drop that first row, then add the Stalk_length column to every
kept row using the one resolved interval. -/
def run_na_rows (rows : List AnnRow) (bp ep : Pat) (so eo : Int)
    (dropFirst : Bool) : Except String (List NaOut) :=
  match rows with
  | [] => Except.error "No valid NA sequences."
  | r0 :: rest =>
    match find_stalk_bounds r0.Sequence bp ep so eo with
    | Except.error m => Except.error m
    | Except.ok (s, e) =>
      let kept := if dropFirst then rest else r0 :: rest
      Except.ok (kept.map (fun r =>
        { EPI := r.EPI, Date := r.Date,
          Stalk_length := stalk_length_of r.Sequence s e }))

/-! ### Merge and contingency table (run_merge) -/

/-- Row of the HA feature CSV. -/
structure HaRow where
  EPI : List Char
  Date : Option (List Char)
  GLS_count : Nat
deriving DecidableEq

/-- Row of the NA feature CSV as selected for the merge. -/
structure NaRow where
  EPI : List Char
  Stalk_length : Nat
deriving DecidableEq

/-- Row of the merged table. -/
structure MergedRow where
  EPI : List Char
  Date : Option (List Char)
  GLS_count : Nat
  Stalk_length : Nat
deriving DecidableEq

/-- ha.merge(na, on EPI, how inner) with the default sort=False: for each HA
row in input order, its matching NA rows in NA input order. -/
def run_merge (ha : List HaRow) (na : List NaRow) : List MergedRow :=
  ha.flatMap (fun h =>
    (na.filter (fun n => n.EPI == h.EPI)).map (fun n =>
      { EPI := h.EPI, Date := h.Date, GLS_count := h.GLS_count,
        Stalk_length := n.Stalk_length }))

/-- Ascending order on the (Stalk_length, GLS_count) group keys. -/
def keyLe (a b : Nat × Nat) : Bool :=
  decide (a.1 < b.1 ∨ (a.1 = b.1 ∧ a.2 ≤ b.2))

/-- Insertion into a keyLe-sorted key list. -/
def insertSorted (x : Nat × Nat) : List (Nat × Nat) → List (Nat × Nat)
  | [] => [x]
  | y :: ys => if keyLe x y then x :: y :: ys else y :: insertSorted x ys

/-- Insertion sort of group keys by keyLe. -/
def sortKeys : List (Nat × Nat) → List (Nat × Nat)
  | [] => []
  | x :: xs => insertSorted x (sortKeys xs)

/-- groupby([Stalk_length, GLS_count]).size() followed by sort_values on the
same two columns: every distinct key in ascending order, each with the number
of merged rows carrying it. -/
def contingency_counts (merged : List MergedRow) : List (Nat × Nat × Nat) :=
  let keys := merged.map (fun m => (m.Stalk_length, m.GLS_count))
  (sortKeys keys.dedup).map (fun k => (k.1, k.2, keys.count k))

/-! ### Specification-side reading of the GLS scan -/

/-- Does the GLS pattern match at the current position of the string. -/
def glsAt (s : List Char) : Bool :=
  match s with
  | a :: b :: c :: _ => glsTriple a b c
  | _ => false

/-- Position of the leftmost GLS match in the string. -/
def firstGls : List Char → Option Nat
  | [] => none
  | x :: xs => if glsAt (x :: xs) then some 0 else (firstGls xs).map (fun i => i + 1)

/-- Specification-side count, following the words of the spec: repeatedly take
the leftmost match, consume its three residues so that none of them can start
the next match, and continue scanning to the right of it. -/
def specGlsCount : List Char → Nat → Nat
  | _, 0 => 0
  | s, fuel + 1 =>
    match firstGls s with
    | none => 0
    | some i => specGlsCount (s.drop (i + 3)) fuel + 1

theorem glsAt_cons3 (a b c : Char) (r : List Char) :
    glsAt (a :: b :: c :: r) = glsTriple a b c := rfl

theorem firstGls_cons (x : Char) (xs : List Char) :
    firstGls (x :: xs) =
      if glsAt (x :: xs) then some 0 else (firstGls xs).map (fun i => i + 1) := rfl

theorem glsScan_cons3 (a b c : Char) (r : List Char) :
    glsScan (a :: b :: c :: r) =
      if glsTriple a b c then glsScan r + 1 else glsScan (b :: c :: r) := rfl

theorem glsScan_eq_zero_of_none : ∀ s : List Char, firstGls s = none → glsScan s = 0
  | [], _ => rfl
  | [_], _ => rfl
  | [_, _], _ => rfl
  | a :: b :: c :: r, h => by
    rw [firstGls_cons, glsAt_cons3] at h
    by_cases ht : glsTriple a b c = true
    · simp [ht] at h
    · simp only [ht, Bool.false_eq_true, if_false, Option.map_eq_none'] at h
      rw [glsScan_cons3, if_neg ht]
      exact glsScan_eq_zero_of_none (b :: c :: r) h

theorem firstGls_bound : ∀ (s : List Char) (i : Nat), firstGls s = some i → i + 3 ≤ s.length
  | [], _, h => by simp [firstGls] at h
  | [a], _, h => by
    rw [firstGls_cons, show glsAt [a] = false from rfl] at h
    simp [firstGls] at h
  | [a, b], _, h => by
    rw [firstGls_cons, show glsAt [a, b] = false from rfl] at h
    rw [firstGls_cons, show glsAt [b] = false from rfl] at h
    simp [firstGls] at h
  | a :: b :: c :: r, i, h => by
    rw [firstGls_cons, glsAt_cons3] at h
    by_cases ht : glsTriple a b c = true
    · simp only [ht, if_true, Option.some.injEq] at h
      subst h
      simp
    · simp only [ht, Bool.false_eq_true, if_false, Option.map_eq_some'] at h
      obtain ⟨j, hj, rfl⟩ := h
      have := firstGls_bound (b :: c :: r) j hj
      simp only [List.length_cons] at this ⊢
      omega

theorem glsScan_eq_succ_of_some :
    ∀ (s : List Char) (i : Nat), firstGls s = some i →
      glsScan s = glsScan (s.drop (i + 3)) + 1
  | [], _, h => by simp [firstGls] at h
  | [a], _, h => by
    rw [firstGls_cons, show glsAt [a] = false from rfl] at h
    simp [firstGls] at h
  | [a, b], _, h => by
    rw [firstGls_cons, show glsAt [a, b] = false from rfl] at h
    rw [firstGls_cons, show glsAt [b] = false from rfl] at h
    simp [firstGls] at h
  | a :: b :: c :: r, i, h => by
    rw [firstGls_cons, glsAt_cons3] at h
    by_cases ht : glsTriple a b c = true
    · simp only [ht, if_true, Option.some.injEq] at h
      subst h
      rw [glsScan_cons3, if_pos ht]
      rfl
    · simp only [ht, Bool.false_eq_true, if_false, Option.map_eq_some'] at h
      obtain ⟨j, hj, rfl⟩ := h
      have hrec := glsScan_eq_succ_of_some (b :: c :: r) j hj
      rw [glsScan_cons3, if_neg ht]
      have hdrop : (a :: b :: c :: r).drop (j + 1 + 3) = (b :: c :: r).drop (j + 3) := by
        have h4 : j + 1 + 3 = (j + 3) + 1 := by omega
        simp [h4, List.drop_succ_cons]
      rw [hdrop]
      exact hrec

theorem specGlsCount_eq_glsScan :
    ∀ (fuel : Nat) (s : List Char), s.length ≤ fuel → specGlsCount s fuel = glsScan s
  | 0, s, h => by
    have : s = [] := List.eq_nil_of_length_eq_zero (Nat.le_zero.mp h)
    subst this
    rfl
  | fuel + 1, s, h => by
    rcases hf : firstGls s with _ | i
    · simp only [specGlsCount, hf]
      exact (glsScan_eq_zero_of_none s hf).symm
    · have hb := firstGls_bound s i hf
      have hlen : (s.drop (i + 3)).length ≤ fuel := by
        simp only [List.length_drop]
        omega
      simp only [specGlsCount, hf]
      rw [specGlsCount_eq_glsScan fuel (s.drop (i + 3)) hlen]
      exact (glsScan_eq_succ_of_some s i hf).symm

/-- C2: for every sequence the GLS count is the non-overlapping left-to-right
match count of the pattern N, non-P, S-or-T on the gap-stripped sequence, a
residue consumed by one match never starting the next; NPSNAT yields 1 and
NASNCT yields 2. -/
theorem count_gls_motifs_spec :
    (∀ seq : List Char, gls_count seq = specGlsCount (ungap seq) (ungap seq).length)
    ∧ (∀ seqs : List (List Char),
        count_gls_motifs seqs = seqs.map (fun s => specGlsCount (ungap s) (ungap s).length))
    ∧ gls_count ['N', 'P', 'S', 'N', 'A', 'T'] = 1
    ∧ gls_count ['N', 'A', 'S', 'N', 'C', 'T'] = 2 := by
  have hone : ∀ seq : List Char,
      gls_count seq = specGlsCount (ungap seq) (ungap seq).length :=
    fun seq => (specGlsCount_eq_glsScan (ungap seq).length (ungap seq) le_rfl).symm
  refine ⟨hone, fun seqs => ?_, by decide, by decide⟩
  unfold count_gls_motifs
  exact List.map_congr_left (fun s _ => hone s)

/-! ### Stalk boundary resolution (claim C1) -/

/-- C1: find_stalk_bounds fails exactly when a motif has no match in the
reference or the computed start is at or beyond the computed end; on success
it returns exactly (end of the first begin-motif match plus start_offset,
start of the first end-motif match plus end_offset), and every returned
interval satisfies start < end. -/
theorem fsb_error_iff (ref : List Char) (bp ep : Pat) (so eo : Int) :
    (∃ m, find_stalk_bounds ref bp ep so eo = Except.error m) ↔
      search bp ref = none ∨ search ep ref = none ∨
        ∃ i j, search bp ref = some i ∧ search ep ref = some j ∧
          ((j : Int) + eo ≤ ((i + bp.length : Nat) : Int) + so) := by
  unfold find_stalk_bounds
  rcases hb : search bp ref with _ | i <;> rcases he : search ep ref with _ | j
  · simp
  · simp
  · simp
  · dsimp only
    by_cases hle : ((j : Nat) : Int) + eo ≤ ((i + bp.length : Nat) : Int) + so
    · rw [if_pos hle]
      exact iff_of_true ⟨_, rfl⟩ (Or.inr (Or.inr ⟨i, j, rfl, rfl, hle⟩))
    · rw [if_neg hle]
      refine iff_of_false ?_ ?_
      · rintro ⟨m, hm⟩
        cases hm
      · rintro (h | h | ⟨i', j', hi', hj', h⟩)
        · cases h
        · cases h
        · cases hi'
          cases hj'
          exact hle h

theorem fsb_ok_eq (ref : List Char) (bp ep : Pat) (so eo : Int) (i j : Nat)
    (hb : search bp ref = some i) (he : search ep ref = some j)
    (hlt : ((i + bp.length : Nat) : Int) + so < (j : Int) + eo) :
    find_stalk_bounds ref bp ep so eo =
      Except.ok (((i + bp.length : Nat) : Int) + so, (j : Int) + eo) := by
  simp only [find_stalk_bounds, hb, he]
  rw [if_neg (not_le.mpr hlt)]

theorem fsb_ok_lt (ref : List Char) (bp ep : Pat) (so eo : Int) (s e : Int)
    (h : find_stalk_bounds ref bp ep so eo = Except.ok (s, e)) : s < e := by
  unfold find_stalk_bounds at h
  rcases hb : search bp ref with _ | i <;> rcases he : search ep ref with _ | j <;>
    simp only [hb, he] at h
  · cases h
  · cases h
  · cases h
  · by_cases hle : ((j : Nat) : Int) + eo ≤ ((i + bp.length : Nat) : Int) + so
    · rw [if_pos hle] at h
      cases h
    · rw [if_neg hle] at h
      cases h
      omega

/-- C1: find_stalk_bounds fails exactly when a motif has no match in the
reference or the computed start is at or beyond the computed end; on success
it returns exactly (end of the first begin-motif match plus start_offset,
start of the first end-motif match plus end_offset), and every returned
interval satisfies start < end. -/
theorem find_stalk_bounds_spec (ref : List Char) (bp ep : Pat) (so eo : Int) :
    ((∃ m, find_stalk_bounds ref bp ep so eo = Except.error m) ↔
      search bp ref = none ∨ search ep ref = none ∨
        ∃ i j, search bp ref = some i ∧ search ep ref = some j ∧
          ((j : Int) + eo ≤ ((i + bp.length : Nat) : Int) + so))
    ∧ (∀ i j, search bp ref = some i → search ep ref = some j →
        ((i + bp.length : Nat) : Int) + so < (j : Int) + eo →
        find_stalk_bounds ref bp ep so eo =
          Except.ok (((i + bp.length : Nat) : Int) + so, (j : Int) + eo))
    ∧ (∀ s e, find_stalk_bounds ref bp ep so eo = Except.ok (s, e) → s < e) :=
  ⟨fsb_error_iff ref bp ep so eo,
   fun i j hb he hlt => fsb_ok_eq ref bp ep so eo i j hb he hlt,
   fun s e h => fsb_ok_lt ref bp ep so eo s e h⟩

/-! ### Metadata extraction keeps exactly the identified records (claim C6) -/

/-- Projection of an annotated row back to its original dataframe row. -/
def dropAnn (a : AnnRow) : Row :=
  { Header := a.Header, Sequence := a.Sequence, Length := a.Length }

/-- C6: metadata extraction keeps exactly the rows whose header contains an
EPI_ISL identifier, in input order; the EPI column holds the leftmost match
verbatim; the Date column holds the first date match and may be none with the
record still kept; the output length is the input length minus the number of
identifier-less headers. -/
theorem annotate_epi_and_date_spec (rows : List Row) :
    ((annotate_epi_and_date rows).map dropAnn
        = rows.filter (fun r => (epiSearch r.Header).isSome))
    ∧ ((annotate_epi_and_date rows).map (fun a => a.EPI)
        = rows.filterMap (fun r => epiSearch r.Header))
    ∧ ((annotate_epi_and_date rows).map (fun a => a.Date)
        = (rows.filter (fun r => (epiSearch r.Header).isSome)).map
            (fun r => dateSearch r.Header))
    ∧ (annotate_epi_and_date rows).length
        = rows.length - (rows.filter (fun r => (epiSearch r.Header).isNone)).length := by
  induction rows with
  | nil => exact ⟨rfl, rfl, rfl, rfl⟩
  | cons r rs ih =>
    obtain ⟨ih1, ih2, ih3, ih4⟩ := ih
    have hlen := List.length_filter_le (fun r => (epiSearch r.Header).isNone) rs
    rcases h : epiSearch r.Header with _ | e
    · refine ⟨?_, ?_, ?_, ?_⟩ <;>
        simp only [annotate_epi_and_date, List.filterMap_cons, List.filter_cons, h,
          Option.isSome_none, Option.isNone_none, Bool.false_eq_true, if_false, if_true,
          List.length_cons] at ih1 ih2 ih3 ih4 ⊢
      · exact ih1
      · exact ih2
      · exact ih3
      · rw [ih4]
        omega
    · refine ⟨?_, ?_, ?_, ?_⟩ <;>
        simp only [annotate_epi_and_date, List.filterMap_cons, List.filter_cons, h,
          Option.isSome_some, Option.isNone_some, Bool.false_eq_true, if_false, if_true,
          List.map_cons, List.length_cons] at ih1 ih2 ih3 ih4 ⊢
      · rw [ih1]
        rfl
      · rw [ih2]
      · rw [ih3]
      · rw [ih4]
        omega

/-! ### Date filtering (claim C7) -/

/-- Specification-side keep predicate of the date-filter claim, read off its
words: keep iff the date is null, or (min_date is unset or date ≥ min_date)
and (max_date is unset or date ≤ max_date), lexicographically. -/
def claimKeep (d : Option (List Char)) (mn mx : Option (List Char)) : Bool :=
  match d with
  | none => true
  | some d =>
    (match mn with
     | none => true
     | some m => strLe m d) &&
    (match mx with
     | none => true
     | some x => strLe d x)

/-- Record with a known collection date, for the date-filter counterexample. -/
def c7row : AnnRow :=
  { Header := [], Sequence := [], Length := 0, EPI := ['E'],
    Date := some ['2', '0', '2', '1', '-', '0', '1', '-', '0', '1'] }

/-- C7 counterexample: with max_date present but equal to the empty string the
claim predicate excludes a dated record (its date is not ≤ the empty string),
yet the code keeps it, because Python truthiness treats the empty string
bound as unset. -/
theorem filter_by_date_claim_cex :
    filter_by_date [c7row] none (some []) = [c7row]
    ∧ claimKeep c7row.Date none (some []) = false := by decide

/-- Amended keep predicate: a bound that is absent or the empty string does
not constrain; otherwise the inclusive lexicographic comparison applies. -/
def minOk (d : List Char) : Option (List Char) → Bool
  | none => true
  | some m => m.isEmpty || strLe m d

/-- Amended max-bound counterpart of minOk. -/
def maxOk (d : List Char) : Option (List Char) → Bool
  | none => true
  | some x => x.isEmpty || strLe d x

/-- Amended row predicate for the date filter. -/
def keepAmended (d : Option (List Char)) (mn mx : Option (List Char)) : Bool :=
  match d with
  | none => true
  | some d => minOk d mn && maxOk d mx

/-- C7 amended: the date filter keeps a record if and only if its date is
null, or (min_date is unset or empty or date ≥ min_date) and (max_date is
unset or empty or date ≤ max_date); the kept records appear in input order. -/
theorem filter_by_date_amended (rows : List AnnRow) (mn mx : Option (List Char)) :
    filter_by_date rows mn mx = rows.filter (fun r => keepAmended r.Date mn mx) := by
  have hnone : ∀ (rows' : List AnnRow),
      rows' = rows'.filter (fun r => keepAmended r.Date none none) := by
    intro rows'
    symm
    apply List.filter_eq_self.mpr
    intro a _
    rcases hd : a.Date with _ | d <;> simp [keepAmended, minOk, maxOk, hd]
  rcases mn with _ | m <;> rcases mx with _ | x
  · exact hnone rows
  · simp only [filter_by_date]
    by_cases hx : x.isEmpty
    · rw [if_pos hx]
      symm
      apply List.filter_eq_self.mpr
      intro a _
      rcases hd : a.Date with _ | d <;> simp [keepAmended, minOk, maxOk, hd, hx]
    · rw [if_neg hx]
      apply List.filter_congr
      intro a _
      rcases hd : a.Date with _ | d <;> simp [keepAmended, keepMax, minOk, maxOk, hd, hx]
  · simp only [filter_by_date]
    by_cases hm : m.isEmpty
    · rw [if_pos hm]
      symm
      apply List.filter_eq_self.mpr
      intro a _
      rcases hd : a.Date with _ | d <;> simp [keepAmended, minOk, maxOk, hd, hm]
    · rw [if_neg hm]
      apply List.filter_congr
      intro a _
      rcases hd : a.Date with _ | d <;> simp [keepAmended, keepMin, minOk, maxOk, hd, hm]
  · simp only [filter_by_date]
    by_cases hm : m.isEmpty <;> by_cases hx : x.isEmpty
    · rw [if_pos hm, if_pos hx]
      symm
      apply List.filter_eq_self.mpr
      intro a _
      rcases hd : a.Date with _ | d <;> simp [keepAmended, minOk, maxOk, hd, hm, hx]
    · rw [if_pos hm, if_neg hx]
      apply List.filter_congr
      intro a _
      rcases hd : a.Date with _ | d <;> simp [keepAmended, keepMax, minOk, maxOk, hd, hm, hx]
    · rw [if_neg hm, if_pos hx]
      apply List.filter_congr
      intro a _
      rcases hd : a.Date with _ | d <;> simp [keepAmended, keepMin, minOk, maxOk, hd, hm, hx]
    · rw [if_neg hm, if_neg hx]
      rw [List.filter_filter]
      apply List.filter_congr
      intro a _
      rcases hd : a.Date with _ | d <;>
        simp [keepAmended, keepMin, keepMax, minOk, maxOk, hd, hm, hx, Bool.and_comm]

/-! ### Strict inner join on sample id (claim C8) -/

/-- HA table of the join example: identifiers A, B, C. -/
def c8ha : List HaRow := [⟨['A'], none, 1⟩, ⟨['B'], none, 2⟩, ⟨['C'], none, 3⟩]

/-- NA table of the join example: identifiers B, C, D. -/
def c8na : List NaRow := [⟨['B'], 10⟩, ⟨['C'], 11⟩, ⟨['D'], 12⟩]

/-- C8: an identifier appears in the merged table exactly when it appears in
both input tables; HA identifiers A, B, C joined with NA identifiers B, C, D
give merged identifiers exactly B, C. -/
theorem run_merge_inner_join :
    (∀ (ha : List HaRow) (na : List NaRow) (k : List Char),
        k ∈ (run_merge ha na).map (fun m => m.EPI) ↔
          k ∈ ha.map (fun h => h.EPI) ∧ k ∈ na.map (fun n => n.EPI))
    ∧ (run_merge c8ha c8na).map (fun m => m.EPI) = [['B'], ['C']] := by
  refine ⟨fun ha na k => ?_, by decide⟩
  unfold run_merge
  constructor
  · intro hk
    rcases List.mem_map.mp hk with ⟨mrow, hmem, hEPI⟩
    rcases List.mem_flatMap.mp hmem with ⟨h, hha, hrow⟩
    rcases List.mem_map.mp hrow with ⟨n, hnf, hmk⟩
    obtain ⟨hna, hbeq⟩ := List.mem_filter.mp hnf
    have hEq : n.EPI = h.EPI := by simpa using hbeq
    have hkh : h.EPI = k := by
      rw [← hmk] at hEPI
      exact hEPI
    exact ⟨List.mem_map.mpr ⟨h, hha, hkh⟩, List.mem_map.mpr ⟨n, hna, hEq.trans hkh⟩⟩
  · rintro ⟨hk1, hk2⟩
    rcases List.mem_map.mp hk1 with ⟨h, hha, hkh⟩
    rcases List.mem_map.mp hk2 with ⟨n, hna, hkn⟩
    refine List.mem_map.mpr
      ⟨_, List.mem_flatMap.mpr
        ⟨h, hha, List.mem_map.mpr ⟨n, List.mem_filter.mpr ⟨hna, ?_⟩, rfl⟩⟩, hkh⟩
    simp [hkn, hkh]

/-! ### Merged row order (claim C3) -/

/-- HA table with identifiers in descending order. -/
def c3ha : List HaRow := [⟨['B'], none, 1⟩, ⟨['A'], none, 2⟩]

/-- NA table with identifiers in ascending order. -/
def c3na : List NaRow := [⟨['A'], 5⟩, ⟨['B'], 6⟩]

/-- C3 counterexample: both keys match, yet the merged identifiers come out
in HA input order B, A, which is not ascending by sample id. -/
theorem run_merge_not_sorted :
    (run_merge c3ha c3na).map (fun m => m.EPI) = [['B'], ['A']]
    ∧ ¬ ((run_merge c3ha c3na).map (fun m => m.EPI)).Pairwise
        (fun a b => strLe a b = true) := by
  refine ⟨by decide, fun h => ?_⟩
  rw [show (run_merge c3ha c3na).map (fun m => m.EPI) = [['B'], ['A']] from by decide] at h
  have hBA := List.rel_of_pairwise_cons h (List.mem_singleton.mpr rfl)
  exact absurd hBA (by decide)

theorem filter_map_const_of_nodup :
    ∀ (na : List NaRow) (k : List Char), (na.map (fun n => n.EPI)).Nodup →
      (na.filter (fun n => n.EPI == k)).map (fun _ => k)
        = if k ∈ na.map (fun n => n.EPI) then [k] else []
  | [], k, _ => by simp
  | n :: ns, k, h => by
    rw [List.map_cons, List.nodup_cons] at h
    obtain ⟨hnot, hns⟩ := h
    simp only [List.map_cons]
    by_cases hk : n.EPI = k
    · subst hk
      rw [List.filter_cons]
      simp only [beq_self_eq_true, if_true]
      have hempty : ns.filter (fun x => x.EPI == n.EPI) = [] := by
        apply List.filter_eq_nil_iff.mpr
        intro x hx
        simp only [beq_iff_eq]
        intro hEq
        exact hnot (hEq ▸ List.mem_map.mpr ⟨x, hx, rfl⟩)
      rw [hempty]
      have hmem : n.EPI ∈ n.EPI :: ns.map (fun n => n.EPI) := List.mem_cons_self _ _
      rw [if_pos hmem]
      rfl
    · rw [List.filter_cons]
      have hbeq : (n.EPI == k) = false := beq_eq_false_iff_ne.mpr hk
      simp only [hbeq, Bool.false_eq_true, if_false]
      rw [filter_map_const_of_nodup ns k hns]
      by_cases hmem : k ∈ ns.map (fun n => n.EPI)
      · rw [if_pos hmem, if_pos (List.mem_cons_of_mem _ hmem)]
      · rw [if_neg hmem, if_neg ?_]
        intro hcons
        rcases List.mem_cons.mp hcons with hEq | htl
        · exact hk hEq.symm
        · exact hmem htl

/-- C3 amended: the merged rows follow the HA (left) input row order, not an
ascending sample-id order; when the NA identifiers are unique, the merged
identifier sequence is exactly the HA identifier sequence restricted to the
identifiers also present in NA. -/
theorem run_merge_left_order (ha : List HaRow) (na : List NaRow)
    (hnd : (na.map (fun n => n.EPI)).Nodup) :
    (run_merge ha na).map (fun m => m.EPI)
      = (ha.map (fun h => h.EPI)).filter
          (fun k => decide (k ∈ na.map (fun n => n.EPI))) := by
  induction ha with
  | nil => rfl
  | cons h hs ih =>
    simp only [run_merge] at ih ⊢
    rw [List.flatMap_cons, List.map_append, List.map_map, List.map_cons, List.filter_cons]
    have hcomp :
        ((fun m : MergedRow => m.EPI) ∘
          (fun n : NaRow =>
            ({ EPI := h.EPI, Date := h.Date, GLS_count := h.GLS_count,
               Stalk_length := n.Stalk_length } : MergedRow)))
          = fun _ : NaRow => h.EPI := rfl
    rw [hcomp, filter_map_const_of_nodup na h.EPI hnd, ih]
    by_cases hmem : h.EPI ∈ na.map (fun n => n.EPI)
    · rw [if_pos hmem, if_pos (by simpa using hmem)]
      rfl
    · rw [if_neg hmem, if_neg (by simpa using hmem)]
      rfl

/-- Witness for the amended C3 theorem at the two concrete tables. -/
theorem run_merge_left_order_witness :
    (run_merge c3ha c3na).map (fun m => m.EPI)
      = (c3ha.map (fun h => h.EPI)).filter
          (fun k => decide (k ∈ c3na.map (fun n => n.EPI))) :=
  run_merge_left_order c3ha c3na (by decide)

/-! ### Contingency aggregation (claim C9) -/

theorem keyLe_total (a b : Nat × Nat) : keyLe a b = true ∨ keyLe b a = true := by
  simp only [keyLe, decide_eq_true_eq]
  omega

theorem keyLe_trans {a b c : Nat × Nat} (h1 : keyLe a b = true)
    (h2 : keyLe b c = true) : keyLe a c = true := by
  simp only [keyLe, decide_eq_true_eq] at h1 h2 ⊢
  omega

theorem mem_insertSorted (x a : Nat × Nat) :
    ∀ l : List (Nat × Nat), a ∈ insertSorted x l ↔ a = x ∨ a ∈ l
  | [] => by simp [insertSorted]
  | y :: ys => by
    rw [insertSorted]
    by_cases h : keyLe x y = true
    · rw [if_pos h]
      simp only [List.mem_cons]
    · rw [if_neg h]
      simp only [List.mem_cons, mem_insertSorted x a ys]
      tauto

theorem perm_insertSorted (x : Nat × Nat) :
    ∀ l : List (Nat × Nat), (insertSorted x l).Perm (x :: l)
  | [] => List.Perm.refl _
  | y :: ys => by
    rw [insertSorted]
    by_cases h : keyLe x y = true
    · rw [if_pos h]
    · rw [if_neg h]
      exact ((perm_insertSorted x ys).cons y).trans (List.Perm.swap x y ys)

theorem perm_sortKeys : ∀ l : List (Nat × Nat), (sortKeys l).Perm l
  | [] => List.Perm.refl _
  | x :: xs => (perm_insertSorted x (sortKeys xs)).trans ((perm_sortKeys xs).cons x)

theorem pairwise_insertSorted (x : Nat × Nat) :
    ∀ l : List (Nat × Nat), l.Pairwise (fun a b => keyLe a b = true) →
      (insertSorted x l).Pairwise (fun a b => keyLe a b = true)
  | [], _ => by simp [insertSorted]
  | y :: ys, h => by
    rw [insertSorted]
    obtain ⟨hy, hys⟩ := List.pairwise_cons.mp h
    by_cases hxy : keyLe x y = true
    · rw [if_pos hxy]
      refine List.pairwise_cons.mpr ⟨?_, h⟩
      intro b hb
      rcases List.mem_cons.mp hb with rfl | hb
      · exact hxy
      · exact keyLe_trans hxy (hy b hb)
    · rw [if_neg hxy]
      have hyx : keyLe y x = true := (keyLe_total x y).resolve_left hxy
      refine List.pairwise_cons.mpr ⟨?_, pairwise_insertSorted x ys hys⟩
      intro b hb
      rcases (mem_insertSorted x b ys).mp hb with rfl | hb
      · exact hyx
      · exact hy b hb

theorem pairwise_sortKeys :
    ∀ l : List (Nat × Nat), (sortKeys l).Pairwise (fun a b => keyLe a b = true)
  | [] => List.Pairwise.nil
  | x :: xs => pairwise_insertSorted x (sortKeys xs) (pairwise_sortKeys xs)

/-- Strict ascending order on group keys. -/
def keyLt (a b : Nat × Nat) : Prop := a.1 < b.1 ∨ (a.1 = b.1 ∧ a.2 < b.2)

theorem keyLt_of_le_ne {a b : Nat × Nat} (h : keyLe a b = true) (hne : a ≠ b) :
    keyLt a b := by
  obtain ⟨a1, a2⟩ := a
  obtain ⟨b1, b2⟩ := b
  simp only [keyLe, decide_eq_true_eq] at h
  simp only [ne_eq, Prod.mk.injEq, not_and] at hne
  simp only [keyLt]
  by_cases h1 : a1 = b1
  · subst h1
    right
    exact ⟨rfl, lt_of_le_of_ne (by omega) (fun hEq => hne rfl hEq)⟩
  · left
    omega

/-- Merged rows of the contingency example: (10, 2) twice and (11, 3) once. -/
def c9m1 : MergedRow := ⟨['x'], none, 2, 10⟩

/-- Second example row sharing the (10, 2) key. -/
def c9m2 : MergedRow := ⟨['y'], none, 2, 10⟩

/-- Third example row with the (11, 3) key. -/
def c9m3 : MergedRow := ⟨['z'], none, 3, 11⟩

/-- C9: the contingency table has exactly one row per distinct
(stalk_length, gls_count) pair of the merged rows, in strictly ascending key
order, with frequency the number of merged rows carrying the pair, always
positive; the three example rows (10,2), (10,2), (11,3) produce exactly
(10,2,2) then (11,3,1). -/
theorem contingency_counts_spec :
    (∀ merged : List MergedRow,
      ((contingency_counts merged).map (fun r => (r.1, r.2.1))).Pairwise keyLt
      ∧ (∀ p : Nat × Nat,
          p ∈ (contingency_counts merged).map (fun r => (r.1, r.2.1)) ↔
            p ∈ merged.map (fun m => (m.Stalk_length, m.GLS_count)))
      ∧ (∀ r ∈ contingency_counts merged,
          r.2.2 = (merged.map (fun m => (m.Stalk_length, m.GLS_count))).count (r.1, r.2.1)
          ∧ 0 < r.2.2))
    ∧ contingency_counts [c9m1, c9m2, c9m3] = [(10, 2, 2), (11, 3, 1)] := by
  refine ⟨fun merged => ?_, by decide⟩
  have hproj : (contingency_counts merged).map (fun r => (r.1, r.2.1))
      = sortKeys (merged.map (fun m => (m.Stalk_length, m.GLS_count))).dedup := by
    unfold contingency_counts
    rw [List.map_map]
    exact List.map_id _
  have hnd : (sortKeys (merged.map (fun m => (m.Stalk_length, m.GLS_count))).dedup).Nodup :=
    ((perm_sortKeys _).nodup_iff).mpr (List.nodup_dedup _)
  refine ⟨?_, ?_, ?_⟩
  · rw [hproj]
    have hpw := pairwise_sortKeys (merged.map (fun m => (m.Stalk_length, m.GLS_count))).dedup
    exact (hpw.and hnd).imp (fun h => keyLt_of_le_ne h.1 h.2)
  · intro p
    rw [hproj]
    exact ((perm_sortKeys _).mem_iff).trans List.mem_dedup
  · intro r hr
    unfold contingency_counts at hr
    rcases List.mem_map.mp hr with ⟨k, hk, rfl⟩
    refine ⟨rfl, ?_⟩
    have hkmem : k ∈ merged.map (fun m => (m.Stalk_length, m.GLS_count)) :=
      List.mem_dedup.mp ((perm_sortKeys _).subset hk)
    exact List.count_pos_iff.mpr hkmem

/-! ### Stalk length under gap insertion (claim C4) -/

/-- Insertion of one gap character at position p of the aligned sequence. -/
def insertGap (p : Nat) (s : List Char) : List Char :=
  s.take p ++ '-' :: s.drop p

/-- C4 counterexample: inserting a gap inside the interval [0, 2) of the
sequence AB shifts the residue B out of the fixed positional window, so the
reported stalk length drops from 2 to 1. -/
theorem stalk_length_gap_cex :
    stalk_length_of (insertGap 1 ['A', 'B']) 0 2 ≠ stalk_length_of ['A', 'B'] 0 2 := by
  decide

theorem pyIdx_natCast (n m : Nat) : pyIdx n (m : Int) = min m n := by
  unfold pyIdx
  rw [if_neg (not_lt.mpr (Int.natCast_nonneg m))]
  simp

theorem length_insertGap (p : Nat) (s : List Char) (h : p ≤ s.length) :
    (insertGap p s).length = s.length + 1 := by
  simp [insertGap]
  omega

/-- C4 amended: gap insertion inside the interval preserves the reported
stalk length only when the window is widened with it: for a ≤ p ≤ b with p a
position of the sequence, the sequence with a gap inserted at p measured over
[a, b + 1) has the same stalk length as the original measured over [a, b). -/
theorem stalk_length_gap_amended (s : List Char) (a b p : Nat)
    (hap : a ≤ p) (hpb : p ≤ b) (hps : p ≤ s.length) :
    stalk_length_of (insertGap p s) (a : Int) ((b : Int) + 1)
      = stalk_length_of s (a : Int) (b : Int) := by
  unfold stalk_length_of pySlice
  have hlen : (insertGap p s).length = s.length + 1 := length_insertGap p s hps
  have hcast : ((b : Int) + 1) = ((b + 1 : Nat) : Int) := by push_cast; ring
  rw [hlen, hcast, pyIdx_natCast, pyIdx_natCast, pyIdx_natCast, pyIdx_natCast]
  have hmina1 : min a (s.length + 1) = a := min_eq_left (by omega)
  have hmina2 : min a s.length = a := min_eq_left (by omega)
  have hminb : min (b + 1) (s.length + 1) = min b s.length + 1 := by omega
  rw [hmina1, hmina2, hminb]
  set m := min b s.length with hm
  have hpm : p ≤ m := by omega
  have hleft : (insertGap p s).take (m + 1)
      = s.take p ++ '-' :: (s.drop p).take (m - p) := by
    unfold insertGap
    rw [List.take_append_eq_append_take, List.take_take, List.length_take,
      min_eq_left hps, min_eq_right (by omega : p ≤ m + 1),
      show m + 1 - p = (m - p) + 1 from by omega, List.take_succ_cons]
  have hright : s.take m = s.take p ++ (s.drop p).take (m - p) := by
    conv_lhs => rw [show m = p + (m - p) from by omega]
    exact List.take_add s p (m - p)
  rw [hleft, hright, List.drop_append_eq_append_drop, List.drop_append_eq_append_drop,
    List.length_take, min_eq_left hps, show a - p = 0 from by omega, List.drop_zero,
    List.drop_zero, List.filter_append, List.filter_append, List.length_append,
    List.length_append]
  have hgap : List.filter (fun c => !(c == '-')) ('-' :: (s.drop p).take (m - p))
      = List.filter (fun c => !(c == '-')) ((s.drop p).take (m - p)) := by
    simp [List.filter_cons]
  rw [hgap]

/-- Witness for the amended C4 theorem on a concrete sequence and interval. -/
theorem stalk_length_gap_amended_witness :
    stalk_length_of (insertGap 1 ['A', 'B', 'C']) ((0 : Nat) : Int) (((2 : Nat) : Int) + 1)
      = stalk_length_of ['A', 'B', 'C'] ((0 : Nat) : Int) ((2 : Nat) : Int) :=
  stalk_length_gap_amended ['A', 'B', 'C'] 0 2 1 (by decide) (by decide) (by decide)

/-! ### FASTA header handling (claim C5) -/

/-- FASTA entry whose header contains whitespace after the identifier. -/
def c5entry : FastaEntry :=
  ⟨['E', 'P', 'I', '_', 'I', 'S', 'L', '_', '1', ' ', '2', '0', '2', '1'],
   ['A', 'C', '-', 'G', 'T']⟩

/-- C5 counterexample: the header string stored for identifier and date
extraction is the first whitespace-delimited word of the header line, not the
full header text of the entry, so a date after a space is lost. -/
theorem fasta_header_cex :
    fasta_to_dataframe [c5entry]
      = [{ Header := ['E', 'P', 'I', '_', 'I', 'S', 'L', '_', '1'],
           Sequence := ['A', 'C', '-', 'G', 'T'], Length := 5 }]
    ∧ ['E', 'P', 'I', '_', 'I', 'S', 'L', '_', '1'] ≠ c5entry.header := by decide

/-- C5 amended: the stored sequence text is the raw residue text with gap
characters intact, and the header string handed to identifier and date
extraction is the first whitespace-delimited word of the entry header, which
equals the full header exactly when the header contains no whitespace. -/
theorem fasta_to_dataframe_amended (entries : List FastaEntry) :
    ((fasta_to_dataframe entries).map (fun r => r.Sequence)
        = entries.map (fun e => e.seqtext))
    ∧ ((fasta_to_dataframe entries).map (fun r => r.Header)
        = entries.map (fun e => record_id e.header))
    ∧ ∀ h : List Char, (∀ c ∈ h, isWS c = false) → record_id h = h := by
  refine ⟨?_, ?_, ?_⟩
  · unfold fasta_to_dataframe
    rw [List.map_map]
    rfl
  · unfold fasta_to_dataframe
    rw [List.map_map]
    rfl
  · intro h hh
    cases h with
    | nil => rfl
    | cons c t =>
      have hc : isWS c = false := hh c (List.mem_cons_self c t)
      unfold record_id
      rw [List.dropWhile_cons, if_neg (by simp [hc]), List.takeWhile_cons,
        if_pos (by simp [hc])]
      congr 1
      exact List.takeWhile_eq_self_iff.mpr
        (fun x hx => by simp [hh x (List.mem_cons_of_mem c hx)])

/-! ### The na subcommand and the drop-first flag (claim C10) -/

/-- C10: the stalk interval is resolved from the first record of the filtered
set; with the drop-first flag that record is excluded from the output while
the interval resolved from it still applies unchanged to every remaining
record, and without the flag it is included as well. -/
theorem run_na_rows_spec (r0 : AnnRow) (rest : List AnnRow) (bp ep : Pat)
    (so eo : Int) (s e : Int)
    (h : find_stalk_bounds r0.Sequence bp ep so eo = Except.ok (s, e)) :
    run_na_rows (r0 :: rest) bp ep so eo true
      = Except.ok (rest.map (fun r =>
          { EPI := r.EPI, Date := r.Date,
            Stalk_length := stalk_length_of r.Sequence s e }))
    ∧ run_na_rows (r0 :: rest) bp ep so eo false
      = Except.ok ((r0 :: rest).map (fun r =>
          { EPI := r.EPI, Date := r.Date,
            Stalk_length := stalk_length_of r.Sequence s e })) := by
  constructor <;> simp [run_na_rows, h]

/-- Reference record of the run_na example, with the spec scenario sequence. -/
def c10ref : AnnRow :=
  { Header := [], Sequence := ['M', 'K', 'T', 'A', 'Y', '-', '-', '-', 'V', 'N'],
    Length := 10, EPI := ['1'], Date := none }

/-- Second record of the run_na example. -/
def c10row : AnnRow :=
  { Header := [], Sequence := ['M', 'K', 'T', 'A', 'Y', 'K', 'K', '-', 'V', 'N'],
    Length := 10, EPI := ['2'], Date := none }

/-- Begin motif MKT as a case-insensitive class pattern. -/
def mktPat : Pat := [ci 'M' 'm', ci 'K' 'k', ci 'T' 't']

/-- End motif VN as a case-insensitive class pattern. -/
def vnPat : Pat := [ci 'V' 'v', ci 'N' 'n']

/-- Witness for the C10 theorem at a concrete two-record dataset. -/
theorem run_na_rows_spec_witness :
    run_na_rows [c10ref, c10row] mktPat vnPat 0 0 true
      = Except.ok ([c10row].map (fun r =>
          { EPI := r.EPI, Date := r.Date,
            Stalk_length := stalk_length_of r.Sequence 3 8 }))
    ∧ run_na_rows [c10ref, c10row] mktPat vnPat 0 0 false
      = Except.ok (([c10ref, c10row]).map (fun r =>
          { EPI := r.EPI, Date := r.Date,
            Stalk_length := stalk_length_of r.Sequence 3 8 })) :=
  run_na_rows_spec c10ref [c10row] mktPat vnPat 0 0 3 8 (by rfl)

end AvianPipeline
